import Mathlib

/-!
Verification of the distribution-descriptor codec in `databusclient/client.py`.

Python strings are modelled as lists of characters (`PyStr`); the Python
string primitives used by the codec (`split` with a one-character separator,
`strip`, `join`, `in`, `rsplit(".", 2)`, `int(...)`, `str(...)` on integers)
are given as executable Lean functions below, and the codec functions are
translated from the source on top of them.  Network fetching and SHA-256
hashing are injected as function parameters (`fetch`, `sha256hex`), so the
codec itself stays a pure program.
-/

namespace Databus

/-- A Python string, modelled as its list of characters. -/
abbrev PyStr := List Char

/-- Python `sep in s` for a one-character `sep`. -/
def pyContains (s : PyStr) (c : Char) : Bool :=
  s.any (fun x => x = c)

/-- Python `s.split(sep)` for a one-character separator `sep`:
splits on every occurrence, keeping empty pieces, and returns `[s]`
(in particular `[""]` for the empty string) when the separator is absent. -/
def pySplit (sep : Char) : PyStr → List PyStr
  | [] => [[]]
  | c :: rest =>
    if c = sep then [] :: pySplit sep rest
    else
      match pySplit sep rest with
      | g :: gs => (c :: g) :: gs
      | [] => [[c]]

/-- Python `sep.join(parts)` for a one-character separator. -/
def pyJoin (sep : Char) : List PyStr → PyStr
  | [] => []
  | [x] => x
  | x :: xs => x ++ sep :: pyJoin sep xs

/-- Python `s.strip(chars)` generalised to a character predicate:
removes the maximal prefix and suffix of characters satisfying `p`. -/
def pyStrip (p : Char → Bool) (l : PyStr) : PyStr :=
  ((l.dropWhile p).reverse.dropWhile p).reverse

/-- ASCII whitespace as stripped by Python's `str.strip()`. -/
def pyIsSpace (c : Char) : Bool :=
  c = ' ' || c = '\t' || c = '\n' || c = '\x0d' || c = '\x0b' || c = '\x0c'

/-- Python `s.rsplit(".", 2)`: like splitting on every dot, but everything
before the last two dots stays glued together as the first piece. -/
def pyRsplitDot2 (s : PyStr) : List PyStr :=
  let parts := pySplit '.' s
  if parts.length ≤ 3 then parts
  else pyJoin '.' (parts.take (parts.length - 2)) :: parts.drop (parts.length - 2)

/-- The decimal digit character for `d % 10`-sized values. -/
def pyDigitChar (d : Nat) : Char :=
  match d with
  | 0 => '0' | 1 => '1' | 2 => '2' | 3 => '3' | 4 => '4'
  | 5 => '5' | 6 => '6' | 7 => '7' | 8 => '8' | _ => '9'

/-- Fuel-based helper for `natDigits` (structural recursion, so decimal
rendering evaluates inside the kernel); the fuel is always sufficient. -/
def natDigitsAux : Nat → Nat → PyStr → PyStr
  | 0, _, acc => acc
  | fuel + 1, n, acc =>
    if n < 10 then pyDigitChar n :: acc
    else natDigitsAux fuel (n / 10) (pyDigitChar (n % 10) :: acc)

/-- Decimal digits of a natural number, most significant first. -/
def natDigits (n : Nat) : PyStr := natDigitsAux (n + 1) n []

/-- Python `str(n)` for an integer `n` (as interpolated by `f"{n}"`). -/
def pyIntRepr (n : Int) : PyStr :=
  if n < 0 then '-' :: natDigits (-n).toNat else natDigits n.toNat

/-- Numeric value of a list of decimal digit characters. -/
def pyDigitsVal (l : PyStr) : Nat :=
  l.foldl (fun a c => a * 10 + (c.toNat - 48)) 0

/-- A well-formed unsigned part for Python `int(...)`: nonempty digit groups
separated by single underscores. -/
def pyGroupsOk (gs : List PyStr) : Bool :=
  gs.all (fun g => !g.isEmpty && g.all Char.isDigit)

/-- Unsigned part of Python `int(...)`: digits with optional single
underscore separators between digits. -/
def pyIntCore (l : PyStr) : Option Nat :=
  let gs := pySplit '_' l
  if pyGroupsOk gs then some (pyDigitsVal gs.flatten) else none

/-- Python `int(s)` for decimal strings: optional surrounding whitespace,
optional sign, then digits (with underscore grouping); `none` models the
`ValueError` raised on anything else. -/
def pyInt (s : PyStr) : Option Int :=
  let t := pyStrip pyIsSpace s
  if t.head? = some '-' then (pyIntCore t.tail).map (fun n => -(n : Int))
  else if t.head? = some '+' then (pyIntCore t.tail).map (fun n => (n : Int))
  else if t.isEmpty then none
  else (pyIntCore t).map (fun n => (n : Int))

/-- The exceptions the codec can raise. -/
inductive PyError where
  /-- `ValueError` from unpacking `key, value = kv.split("=")`. -/
  | unpack
  /-- `ValueError` "Can't parse Argument ... Too many values". -/
  | malformedChecksum
  /-- `ValueError` from `int(...)` on a non-numeric length field. -/
  | intParse
  /-- `requests.exceptions.RequestException` on a failed fetch. -/
  | transport
deriving DecidableEq, Repr

/-- Python dict assignment `d[k] = v` on an insertion-ordered dictionary:
overwrite in place if the key exists, else append. -/
def dictInsert (d : List (PyStr × PyStr)) (k v : PyStr) : List (PyStr × PyStr) :=
  if d.any (fun p => p.1 = k) then
    d.map (fun p => if p.1 = k then (k, v) else p)
  else d ++ [(k, v)]

/-- The loop body of `__get_content_variants`: for each token `kv`,
`key, value = kv.split("=")` (exactly two parts, else `ValueError`), then
`cvs[key] = value`. -/
def addCvTokens (cvs : List (PyStr × PyStr)) : List PyStr → Except PyError (List (PyStr × PyStr))
  | [] => .ok cvs
  | kv :: rest =>
    match pySplit '=' kv with
    | [key, value] => addCvTokens (dictInsert cvs key value) rest
    | _ => .error .unpack

/-- `__get_content_variants`: parse the segment at position 1 (after the URL)
into an insertion-ordered mapping; absent or whitespace-only segment gives
the empty mapping; the segment is stripped of surrounding underscores, split
on `_`, and each token split on `=`. -/
def __get_content_variants (s : PyStr) : Except PyError (List (PyStr × PyStr)) :=
  let args := pySplit '|' s
  match args.get? 1 with
  | none => .ok []
  | some cv =>
    if (pyStrip pyIsSpace cv).isEmpty then .ok []
    else addCvTokens [] (pySplit '_' (pyStrip (fun c => c = '_') cv))

/-- The positional dispatch of `__get_filetype_definition` on the post-URL
segment list: length 4 takes positions 1 and 2; length 3 and 2 use a colon
heuristic on the last segment; all other lengths resolve nothing. -/
def filetypeOfMeta : List PyStr → Option PyStr × Option PyStr
  | [_, f, c, _] => (some f, some c)
  | [_, f, last] =>
    if pyContains last ':' then (some f, none) else (some f, some last)
  | [_, last] =>
    if pyContains last ':' then (none, none) else (some last, none)
  | _ => (none, none)

/-- `__get_filetype_definition`: drop the URL from the pipe-split descriptor
and resolve `(file_ext, compression)` positionally. -/
def __get_filetype_definition (s : PyStr) : Option PyStr × Option PyStr :=
  filetypeOfMeta ((pySplit '|' s).drop 1)

/-- `distribution_str.split("|")[0].split("/")[-1]`: the final
slash-segment of the URL part of the descriptor. -/
def urlLastSegment (s : PyStr) : PyStr :=
  (pySplit '/' ((pySplit '|' s).headD [])).getLastD []

/-- `last_segment.split("#")[0].rsplit(".", 2)`: the dot pieces the URL
inference works on. -/
def dotSplits (s : PyStr) : List PyStr :=
  pyRsplitDot2 ((pySplit '#' (urlLastSegment s)).headD [])

/-- `__get_extensions`: explicit positional format/compression if resolved
(with compression defaulting to `"none"`), else inference from the URL's
dotted last segment.  The source's two sequential `if len(dot_splits) > 1`
and `> 2` updates collapse to this three-way case split: when both fire only
the second assignment survives. -/
def __get_extensions (s : PyStr) : PyStr × PyStr × PyStr :=
  match __get_filetype_definition s with
  | (some format_extension, some compression) =>
    ('.' :: format_extension ++ '.' :: compression, format_extension, compression)
  | (some format_extension, none) =>
    ('.' :: format_extension, format_extension, "none".toList)
  | (none, _) =>
    let ds := dotSplits s
    if 2 < ds.length then
      ('.' :: ds.getD (ds.length - 2) [] ++ '.' :: ds.getLastD [],
        ds.getD (ds.length - 2) [], ds.getLastD [])
    else if 1 < ds.length then
      ('.' :: ds.getLastD [], ds.getLastD [], "none".toList)
    else ([], "file".toList, "none".toList)

/-- `__get_file_stats`: `(None, None)` when there is no post-URL segment or
the last one has no colon; otherwise the last segment must split on `:` into
exactly two parts (else `ValueError`), the second being `int`-parsed. -/
def __get_file_stats (s : PyStr) : Except PyError (Option (PyStr × Int)) :=
  let metadata_list := (pySplit '|' s).drop 1
  if metadata_list.isEmpty || !pyContains (metadata_list.getLastD []) ':' then .ok none
  else
    match pySplit ':' (metadata_list.getLastD []) with
    | [sha256sum, lenstr] =>
      match pyInt lenstr with
      | some content_length => .ok (some (sha256sum, content_length))
      | none => .error .intParse
    | _ => .error .malformedChecksum

/-- `__load_file_stats`: fetch the URL (`fetch url = (status_code, content)`),
raise a transport error when `status_code > 400`, else return the SHA-256
hex digest (via the injected `sha256hex`) and the byte count. -/
def __load_file_stats (fetch : PyStr → Nat × List Nat) (sha256hex : List Nat → PyStr)
    (url : PyStr) : Except PyError (PyStr × Int) :=
  let resp := fetch url
  if 400 < resp.1 then .error .transport
  else .ok (sha256hex resp.2, (resp.2.length : Int))

/-- `__get_file_info`: compose content variants, extensions and file stats;
when the stats are not explicit in the descriptor they are loaded by
fetching the URL part. -/
def __get_file_info (fetch : PyStr → Nat × List Nat) (sha256hex : List Nat → PyStr)
    (s : PyStr) : Except PyError ((List (PyStr × PyStr)) × PyStr × PyStr × PyStr × Int) := do
  let cvs ← __get_content_variants s
  let (_extension_part, format_extension, compression) := __get_extensions s
  match ← __get_file_stats s with
  | some (sha256sum, content_length) =>
    return (cvs, format_extension, compression, sha256sum, content_length)
  | none =>
    let url := (pySplit '|' s).headD []
    let (sha256sum, content_length) ← __load_file_stats fetch sha256hex url
    return (cvs, format_extension, compression, sha256sum, content_length)

/-- `create_distribution`: serialize the content variants as
underscore-joined `key=value` pairs, then append `|format`, `|compression`
and `|sha256sum:content_length` exactly when the corresponding optional
argument is supplied, and prefix the URL with a `|` separator. -/
def create_distribution (url : PyStr) (cvs : List (PyStr × PyStr))
    (file_format : Option PyStr) (compression : Option PyStr)
    (sha256_length_tuple : Option (PyStr × Int)) : PyStr :=
  let meta_string := pyJoin '_' (cvs.map (fun kv => kv.1 ++ '=' :: kv.2))
  let meta_string :=
    match file_format with
    | some f => meta_string ++ '|' :: f
    | none => meta_string
  let meta_string :=
    match compression with
    | some c => meta_string ++ '|' :: c
    | none => meta_string
  let meta_string :=
    match sha256_length_tuple with
    | some (sha256sum, content_length) =>
      meta_string ++ '|' :: (sha256sum ++ ':' :: pyIntRepr content_length)
    | none => meta_string
  url ++ '|' :: meta_string

/-- The decoded form of one distribution (§3 of the design): URL, ordered
content variants, format, compression, checksum, byte length. -/
structure DistDescriptor where
  url : PyStr
  content_variants : List (PyStr × PyStr)
  format_extension : PyStr
  compression : PyStr
  checksum : PyStr
  byte_length : Int
deriving DecidableEq, Repr

/-! ### Basic facts about the Python-string primitives -/

theorem pyContains_nil (x : Char) : pyContains [] x = false := rfl

theorem pyContains_cons (c : Char) (l : PyStr) (x : Char) :
    pyContains (c :: l) x = ((c = x : Bool) || pyContains l x) := by
  simp [pyContains]

theorem pyContains_eq_false_iff (l : PyStr) (x : Char) :
    pyContains l x = false ↔ x ∉ l := by
  simp [pyContains]
  constructor
  · intro h hx
    exact h x hx rfl
  · intro h c hc hcx
    exact h (hcx ▸ hc)

theorem pySplit_ne_nil (sep : Char) (s : PyStr) : pySplit sep s ≠ [] := by
  induction s with
  | nil => simp [pySplit]
  | cons c rest ih =>
    simp only [pySplit]
    split
    · simp
    · cases h : pySplit sep rest <;> simp

theorem pySplit_no_sep {sep : Char} {s : PyStr} (h : pyContains s sep = false) :
    pySplit sep s = [s] := by
  induction s with
  | nil => rfl
  | cons c rest ih =>
    rw [pyContains_cons, Bool.or_eq_false_iff] at h
    have hc : ¬ c = sep := by simpa using h.1
    simp only [pySplit, if_neg hc, ih h.2]

theorem pySplit_append_sep {sep : Char} {a : PyStr} (b : PyStr)
    (h : pyContains a sep = false) :
    pySplit sep (a ++ sep :: b) = a :: pySplit sep b := by
  induction a with
  | nil => simp [pySplit]
  | cons c a ih =>
    rw [pyContains_cons, Bool.or_eq_false_iff] at h
    have hc : ¬ c = sep := by simpa using h.1
    show pySplit sep (c :: (a ++ sep :: b)) = (c :: a) :: pySplit sep b
    rw [pySplit, if_neg hc, ih h.2]

/-! ### C1: positional resolution of format and compression -/

theorem filetypeOfMeta_spec (l : List PyStr) :
    (l.length = 4 → filetypeOfMeta l = (l.get? 1, l.get? 2)) ∧
    (l.length = 3 → pyContains (l.getLastD []) ':' = true →
      filetypeOfMeta l = (l.get? 1, none)) ∧
    (l.length = 3 → pyContains (l.getLastD []) ':' = false →
      filetypeOfMeta l = (l.get? 1, l.get? 2)) ∧
    (l.length = 2 → pyContains (l.getLastD []) ':' = true →
      filetypeOfMeta l = (none, none)) ∧
    (l.length = 2 → pyContains (l.getLastD []) ':' = false →
      filetypeOfMeta l = (l.get? 1, none)) ∧
    (l.length ≤ 1 ∨ 4 < l.length → filetypeOfMeta l = (none, none)) := by
  rcases l with _ | ⟨a, _ | ⟨b, _ | ⟨c, _ | ⟨d, _ | ⟨e, t⟩⟩⟩⟩⟩
  · simp [filetypeOfMeta]
  · simp [filetypeOfMeta]
  · refine ⟨by simp, by simp, by simp, ?_, ?_, by simp⟩
    · intro _ hc
      simp [filetypeOfMeta, show pyContains b ':' = true from hc]
    · intro _ hc
      simp [filetypeOfMeta, show pyContains b ':' = false from hc]
  · refine ⟨by simp, ?_, ?_, by simp, by simp, by simp⟩
    · intro _ hc
      simp [filetypeOfMeta, show pyContains c ':' = true from hc]
    · intro _ hc
      simp [filetypeOfMeta, show pyContains c ':' = false from hc]
  · exact ⟨fun _ => by simp [filetypeOfMeta], by simp, by simp, by simp, by simp, by simp⟩
  · refine ⟨by simp, by simp, by simp, by simp, by simp, fun _ => ?_⟩
    show filetypeOfMeta (a :: b :: c :: d :: e :: t) = (none, none)
    rfl

/-- C1: `__get_filetype_definition` resolves `(format, compression)` purely
from the length of the post-URL segment list and a colon heuristic on its
last segment: length 4 takes positions 1 and 2; length 3 takes position 1
and, without a colon in the last segment, position 2; length 2 resolves
nothing with a colon in the last segment and only the format without one;
all other lengths resolve nothing. -/
theorem c1_filetype_resolution (s : PyStr) :
    (((pySplit '|' s).drop 1).length = 4 →
      __get_filetype_definition s =
        (((pySplit '|' s).drop 1).get? 1, ((pySplit '|' s).drop 1).get? 2)) ∧
    (((pySplit '|' s).drop 1).length = 3 →
      pyContains (((pySplit '|' s).drop 1).getLastD []) ':' = true →
      __get_filetype_definition s = (((pySplit '|' s).drop 1).get? 1, none)) ∧
    (((pySplit '|' s).drop 1).length = 3 →
      pyContains (((pySplit '|' s).drop 1).getLastD []) ':' = false →
      __get_filetype_definition s =
        (((pySplit '|' s).drop 1).get? 1, ((pySplit '|' s).drop 1).get? 2)) ∧
    (((pySplit '|' s).drop 1).length = 2 →
      pyContains (((pySplit '|' s).drop 1).getLastD []) ':' = true →
      __get_filetype_definition s = (none, none)) ∧
    (((pySplit '|' s).drop 1).length = 2 →
      pyContains (((pySplit '|' s).drop 1).getLastD []) ':' = false →
      __get_filetype_definition s = (((pySplit '|' s).drop 1).get? 1, none)) ∧
    (((pySplit '|' s).drop 1).length ≤ 1 ∨ 4 < ((pySplit '|' s).drop 1).length →
      __get_filetype_definition s = (none, none)) :=
  filetypeOfMeta_spec ((pySplit '|' s).drop 1)

/-- Witness for C1 at a concrete four-segment descriptor. -/
theorem c1_filetype_resolution_witness :
    __get_filetype_definition "u|v|f|c|x:1".toList = (some "f".toList, some "c".toList) :=
  ((c1_filetype_resolution "u|v|f|c|x:1".toList).1 (by decide)).trans (by decide)

/-! ### C3: URL-suffix inference when the format is not positional -/

/-- C3: when the positional resolver leaves the format unresolved,
`__get_extensions` infers from the dot pieces of the URL's final path
segment (fragment removed): one piece means the defaults `"file"`/`"none"`,
two pieces make the last piece the format with compression `"none"`, three
pieces make the middle piece the format and the last the compression. -/
theorem c3_url_inference (s : PyStr) (h : (__get_filetype_definition s).1 = none) :
    ((dotSplits s).length = 1 →
      (__get_extensions s).2.1 = "file".toList ∧ (__get_extensions s).2.2 = "none".toList) ∧
    ((dotSplits s).length = 2 →
      (__get_extensions s).2.1 = (dotSplits s).getLastD [] ∧
      (__get_extensions s).2.2 = "none".toList) ∧
    ((dotSplits s).length = 3 →
      (__get_extensions s).2.1 = (dotSplits s).getD 1 [] ∧
      (__get_extensions s).2.2 = (dotSplits s).getLastD []) := by
  rcases hfd : __get_filetype_definition s with ⟨fo, co⟩
  rw [hfd] at h
  simp only at h
  subst h
  simp only [__get_extensions, hfd]
  refine ⟨?_, ?_, ?_⟩ <;> intro hl <;> rw [hl] <;> norm_num

/-- Witness for C3 at a URL-only descriptor with a two-dot filename. -/
theorem c3_url_inference_witness :
    (__get_extensions "http://e/d.json.gz".toList).2.1 = "json".toList ∧
    (__get_extensions "http://e/d.json.gz".toList).2.2 = "gz".toList := by
  have h := (c3_url_inference "http://e/d.json.gz".toList (by decide)).2.2 (by decide)
  exact ⟨h.1.trans (by decide), h.2.trans (by decide)⟩

/-! ### C4: default inference on a `.../data.json.gz` URL -/

/-- Counterexample to C4 as stated: decoding the bare URL
`https://example.org/data.json.gz` yields compression `"gz"` (the literal
URL suffix), not `"gzip"` as the claim says. -/
theorem c4_counterexample :
    (__get_extensions "https://example.org/data.json.gz".toList).2.2 = "gz".toList ∧
    "gz".toList ≠ "gzip".toList := by
  constructor
  · decide
  · decide

/-- C4 (amended): decoding a descriptor that consists only of a URL ending
in `.../data.json.gz` yields format `"json"`, compression `"gz"` (the URL
suffix is used verbatim; there is no normalization to `"gzip"`), and an
empty content-variant mapping. -/
theorem c4_amended :
    __get_extensions "https://example.org/data.json.gz".toList =
      (".json.gz".toList, "json".toList, "gz".toList) ∧
    __get_content_variants "https://example.org/data.json.gz".toList = .ok [] ∧
    __get_filetype_definition "https://example.org/data.json.gz".toList = (none, none) := by
  refine ⟨by decide, by rfl, by decide⟩

/-! ### C5: transport failure on client/server error statuses -/

/-- C5 shows a code bug: `__load_file_stats` raises only for HTTP statuses
strictly greater than 400, so a fetch answered with status 400 (a client
error) is treated as success and its body is hashed and measured, while
statuses 404 and 500 are rejected as the claim expects. -/
theorem c5_status_400_accepted (sha256hex : List Nat → PyStr) (url : PyStr)
    (content : List Nat) :
    __load_file_stats (fun _ => (400, content)) sha256hex url =
      .ok (sha256hex content, (content.length : Int)) ∧
    __load_file_stats (fun _ => (404, content)) sha256hex url = .error .transport ∧
    __load_file_stats (fun _ => (500, content)) sha256hex url = .error .transport := by
  refine ⟨?_, ?_, ?_⟩ <;> norm_num [__load_file_stats]

/-! ### C6: malformed checksum fields are rejected -/

/-- C6: whenever the last post-URL segment contains a colon but does not
split on `:` into exactly two parts, `__get_file_stats` fails with the
malformed-checksum error (never truncating or repairing the field). -/
theorem c6_malformed_checksum (s : PyStr)
    (h1 : (pySplit '|' s).drop 1 ≠ [])
    (h2 : pyContains (((pySplit '|' s).drop 1).getLastD []) ':' = true)
    (h3 : (pySplit ':' (((pySplit '|' s).drop 1).getLastD [])).length ≠ 2) :
    __get_file_stats s = .error .malformedChecksum := by
  have hne : ((pySplit '|' s).drop 1).isEmpty = false := by
    simpa [List.isEmpty_iff] using h1
  rw [__get_file_stats]
  simp only [hne, h2, Bool.not_true, Bool.or_self, Bool.false_eq_true, if_false]
  rcases hsp : pySplit ':' (((pySplit '|' s).drop 1).getLastD []) with _ | ⟨x, _ | ⟨y, _ | t⟩⟩
  · rfl
  · rfl
  · rw [hsp] at h3
    simp at h3
  · rfl

/-- Witness for C6 at the three-part field `abc:def:ghi`. -/
theorem c6_malformed_checksum_witness :
    __get_file_stats "u|abc:def:ghi".toList = .error .malformedChecksum :=
  c6_malformed_checksum "u|abc:def:ghi".toList (by decide) (by decide) (by decide)

/-! ### C7: explicit checksum/length bypasses the fetch -/

/-- C7: whenever the descriptor carries an explicit `checksum:length` pair,
`__get_file_info` gives the same result for any two fetchers — in
particular for an unreachable URL — so no network fetch influences
decoding; the fetcher matters only when the stats are not explicit. -/
theorem c7_explicit_stats_no_fetch (s : PyStr) (pr : PyStr × Int)
    (h : __get_file_stats s = .ok (some pr))
    (fetch₁ fetch₂ : PyStr → Nat × List Nat) (sha256hex : List Nat → PyStr) :
    __get_file_info fetch₁ sha256hex s = __get_file_info fetch₂ sha256hex s := by
  cases hc : __get_content_variants s with
  | error e => simp [__get_file_info, hc, Bind.bind, Except.bind]
  | ok cvs => simp [__get_file_info, hc, h, Bind.bind, Except.bind]

/-- Witness for C7: with explicit stats, a successful fetcher and a
failing fetcher decode identically. -/
theorem c7_explicit_stats_no_fetch_witness :
    __get_file_info (fun _ => (200, [])) (fun _ => []) "u|a=b|abc:5".toList =
      __get_file_info (fun _ => (500, [0])) (fun _ => []) "u|a=b|abc:5".toList :=
  c7_explicit_stats_no_fetch "u|a=b|abc:5".toList ("abc".toList, 5) (by rfl)
    (fun _ => (200, [])) (fun _ => (500, [0])) (fun _ => [])

/-! ### C10: the length field goes through integer conversion -/

/-- C10: when the trailing segment splits on `:` into exactly two parts,
`__get_file_stats` integer-converts the second part: a non-numeric part is
a fatal conversion error (and decoding then never returns a descriptor),
and on success the returned byte length is exactly the converted value. -/
theorem c10_length_int_conversion (s : PyStr) (sha lenstr : PyStr)
    (h1 : (pySplit '|' s).drop 1 ≠ [])
    (h2 : pyContains (((pySplit '|' s).drop 1).getLastD []) ':' = true)
    (h3 : pySplit ':' (((pySplit '|' s).drop 1).getLastD []) = [sha, lenstr]) :
    __get_file_stats s = (match pyInt lenstr with
      | some n => .ok (some (sha, n))
      | none => .error .intParse) ∧
    (pyInt lenstr = none → ∀ (fetch : PyStr → Nat × List Nat) (sha256hex : List Nat → PyStr),
      ∃ e, __get_file_info fetch sha256hex s = .error e) := by
  have hne : ((pySplit '|' s).drop 1).isEmpty = false := by
    simpa [List.isEmpty_iff] using h1
  have hstats : __get_file_stats s = (match pyInt lenstr with
      | some n => .ok (some (sha, n))
      | none => .error .intParse) := by
    rw [__get_file_stats]
    simp only [hne, h2, Bool.not_true, Bool.or_self, Bool.false_eq_true, if_false]
    rw [h3]
  refine ⟨hstats, ?_⟩
  intro hnone fetch sha256hex
  rw [hnone] at hstats
  have hstats2 : __get_file_stats s = Except.error PyError.intParse := hstats
  cases hc : __get_content_variants s with
  | error e => exact ⟨e, by simp [__get_file_info, hc, Bind.bind, Except.bind]⟩
  | ok cvs =>
    exact ⟨.intParse, by simp [__get_file_info, hc, hstats2, Bind.bind, Except.bind]⟩

/-- Witness for C10 at the descriptor `u|a=b|abc:def`, whose length field
`def` is not numeric. -/
theorem c10_length_int_conversion_witness :
    __get_file_stats "u|a=b|abc:def".toList = .error .intParse ∧
    ∃ e, __get_file_info (fun _ => (200, [])) (fun _ => []) "u|a=b|abc:def".toList = .error e := by
  have h := c10_length_int_conversion "u|a=b|abc:def".toList "abc".toList "def".toList
    (by decide) (by decide) (by decide)
  exact ⟨h.1.trans (by rfl), h.2 (by rfl) (fun _ => (200, [])) (fun _ => [])⟩

/-! ### Unfolding lemmas for `__get_extensions` -/

theorem get_extensions_of_some_some {s : PyStr} {f c : PyStr}
    (h : __get_filetype_definition s = (some f, some c)) :
    __get_extensions s = ('.' :: f ++ '.' :: c, f, c) := by
  rw [__get_extensions, h]

theorem get_extensions_of_some_none {s : PyStr} {f : PyStr}
    (h : __get_filetype_definition s = (some f, none)) :
    __get_extensions s = ('.' :: f, f, "none".toList) := by
  rw [__get_extensions, h]

theorem get_extensions_of_none {s : PyStr} {co : Option PyStr}
    (h : __get_filetype_definition s = (none, co)) :
    __get_extensions s =
      (if 2 < (dotSplits s).length then
        ('.' :: (dotSplits s).getD ((dotSplits s).length - 2) [] ++
            '.' :: (dotSplits s).getLastD [],
          (dotSplits s).getD ((dotSplits s).length - 2) [], (dotSplits s).getLastD [])
      else if 1 < (dotSplits s).length then
        ('.' :: (dotSplits s).getLastD [], (dotSplits s).getLastD [], "none".toList)
      else ([], "file".toList, "none".toList)) := by
  rw [__get_extensions, h]

/-! ### C8: when the defaults `"file"` and `"none"` are applied -/

/-- Counterexample to C8 as stated: in `http://e/a.json.gz|v=1|json` the
compression is not resolved positionally, and the URL path's dot pieces do
carry a compression label (`gz`), yet the decoded compression is the
default `"none"` — the inference is skipped entirely because the format
was explicit, so the default is applied even though information about the
compression was inferable from the URL path. -/
theorem c8_counterexample :
    (__get_filetype_definition "http://e/a.json.gz|v=1|json".toList).2 = none ∧
    dotSplits "http://e/a.json.gz|v=1|json".toList =
      ["a".toList, "json".toList, "gz".toList] ∧
    (__get_extensions "http://e/a.json.gz|v=1|json".toList).2.2 = "none".toList := by
  refine ⟨by decide, by decide, by decide⟩

/-- C8 (amended): decoded format and compression are always concrete, and
their default literals can only arise as follows — `"file"` only when the
format is positionally `"file"` or unresolved with at most one dot piece or
with a dot piece literally equal to `"file"`; `"none"` only when the
compression is positionally `"none"`, or the format is positionally
resolved and the compression is not (the URL is then never consulted), or
the format is unresolved and the dot pieces carry no compression label (or
one literally equal to `"none"`). -/
theorem c8_amended (s : PyStr) :
    ((__get_extensions s).2.1 = "file".toList →
      (__get_filetype_definition s).1 = some "file".toList ∨
      ((__get_filetype_definition s).1 = none ∧
        ((dotSplits s).length ≤ 1 ∨
         (1 < (dotSplits s).length ∧ (dotSplits s).length ≤ 2 ∧
           (dotSplits s).getLastD [] = "file".toList) ∨
         (2 < (dotSplits s).length ∧
           (dotSplits s).getD ((dotSplits s).length - 2) [] = "file".toList)))) ∧
    ((__get_extensions s).2.2 = "none".toList →
      (__get_filetype_definition s).2 = some "none".toList ∨
      ((__get_filetype_definition s).1.isSome = true ∧
        (__get_filetype_definition s).2 = none) ∨
      ((__get_filetype_definition s).1 = none ∧
        ((dotSplits s).length ≤ 2 ∨
         (2 < (dotSplits s).length ∧ (dotSplits s).getLastD [] = "none".toList)))) := by
  rcases hfd : __get_filetype_definition s with ⟨fo, co⟩
  cases fo with
  | some f =>
    cases co with
    | some c =>
      have hx := get_extensions_of_some_some hfd
      rw [hx]
      constructor
      · intro h
        exact Or.inl (by simpa using h)
      · intro h
        exact Or.inl (by simpa using h)
    | none =>
      have hx := get_extensions_of_some_none hfd
      rw [hx]
      constructor
      · intro h
        exact Or.inl (by simpa using h)
      · intro _
        exact Or.inr (Or.inl (by simp))
  | none =>
    have hx := get_extensions_of_none hfd
    rw [hx]
    by_cases h2 : 2 < (dotSplits s).length
    · rw [if_pos h2]
      constructor
      · intro h
        exact Or.inr ⟨rfl, Or.inr (Or.inr ⟨h2, by simpa using h⟩)⟩
      · intro h
        exact Or.inr (Or.inr ⟨rfl, Or.inr ⟨h2, by simpa using h⟩⟩)
    · rw [if_neg h2]
      by_cases h1 : 1 < (dotSplits s).length
      · rw [if_pos h1]
        constructor
        · intro h
          exact Or.inr ⟨rfl, Or.inr (Or.inl ⟨h1, by omega, by simpa using h⟩)⟩
        · intro _
          exact Or.inr (Or.inr ⟨rfl, Or.inl (by omega)⟩)
      · rw [if_neg h1]
        constructor
        · intro _
          exact Or.inr ⟨rfl, Or.inl (by omega)⟩
        · intro _
          exact Or.inr (Or.inr ⟨rfl, Or.inl (by omega)⟩)

/-- Witness for C8 (amended) at the dotless URL `http://e/data`: both
defaults are applied and the no-information branch of the disjunction
holds. -/
theorem c8_amended_witness :
    ((__get_filetype_definition "http://e/data".toList).1 = some "file".toList ∨
      ((__get_filetype_definition "http://e/data".toList).1 = none ∧
        ((dotSplits "http://e/data".toList).length ≤ 1 ∨
         (1 < (dotSplits "http://e/data".toList).length ∧
           (dotSplits "http://e/data".toList).length ≤ 2 ∧
           (dotSplits "http://e/data".toList).getLastD [] = "file".toList) ∨
         (2 < (dotSplits "http://e/data".toList).length ∧
           (dotSplits "http://e/data".toList).getD
             ((dotSplits "http://e/data".toList).length - 2) [] = "file".toList)))) ∧
    ((__get_filetype_definition "http://e/data".toList).2 = some "none".toList ∨
      ((__get_filetype_definition "http://e/data".toList).1.isSome = true ∧
        (__get_filetype_definition "http://e/data".toList).2 = none) ∨
      ((__get_filetype_definition "http://e/data".toList).1 = none ∧
        ((dotSplits "http://e/data".toList).length ≤ 2 ∨
         (2 < (dotSplits "http://e/data".toList).length ∧
           (dotSplits "http://e/data".toList).getLastD [] = "none".toList)))) :=
  ⟨(c8_amended "http://e/data".toList).1 (by decide),
   (c8_amended "http://e/data".toList).2 (by decide)⟩

/-! ### Toolkit: membership, strip and join/split inverses -/

theorem pyContains_eq_true_iff (l : PyStr) (x : Char) :
    pyContains l x = true ↔ x ∈ l := by
  simp [pyContains]

theorem pyJoin_cons_cons {sep : Char} (t t2 : PyStr) (ts2 : List PyStr) :
    pyJoin sep (t :: t2 :: ts2) = t ++ sep :: pyJoin sep (t2 :: ts2) := rfl

theorem pySplit_pyJoin {sep : Char} {ts : List PyStr} (hne : ts ≠ [])
    (h : ∀ t ∈ ts, pyContains t sep = false) :
    pySplit sep (pyJoin sep ts) = ts := by
  induction ts with
  | nil => exact absurd rfl hne
  | cons t ts ih =>
    cases ts with
    | nil => exact pySplit_no_sep (h t (by simp))
    | cons t2 ts2 =>
      rw [pyJoin_cons_cons, pySplit_append_sep _ (h t (by simp))]
      rw [ih (by simp) (fun u hu => h u (by simp [hu]))]

theorem mem_pyJoin {sep : Char} {ts : List PyStr} {c : Char}
    (h : c ∈ pyJoin sep ts) : c = sep ∨ ∃ t ∈ ts, c ∈ t := by
  induction ts with
  | nil => simp [pyJoin] at h
  | cons t ts ih =>
    cases ts with
    | nil => exact Or.inr ⟨t, by simp, by simpa [pyJoin] using h⟩
    | cons t2 ts2 =>
      rw [pyJoin_cons_cons] at h
      rcases List.mem_append.1 h with h1 | h2
      · exact Or.inr ⟨t, by simp, h1⟩
      · rcases List.mem_cons.1 h2 with h3 | h4
        · exact Or.inl h3
        · rcases ih h4 with h5 | ⟨u, hu, hcu⟩
          · exact Or.inl h5
          · exact Or.inr ⟨u, by simp [hu], hcu⟩

theorem mem_pyJoin_of_mem {sep : Char} {ts : List PyStr} {t : PyStr} {c : Char}
    (ht : t ∈ ts) (hc : c ∈ t) : c ∈ pyJoin sep ts := by
  induction ts with
  | nil => simp at ht
  | cons t1 ts1 ih =>
    cases ts1 with
    | nil =>
      rw [List.mem_singleton] at ht
      subst ht
      simpa [pyJoin] using hc
    | cons t2 ts2 =>
      rw [pyJoin_cons_cons]
      rcases List.mem_cons.1 ht with h1 | h2
      · exact List.mem_append.2 (Or.inl (h1 ▸ hc))
      · exact List.mem_append.2 (Or.inr (List.mem_cons.2 (Or.inr (ih h2))))

theorem mem_dropWhile_of_neg {p : Char → Bool} {c : Char} {l : PyStr}
    (hc : p c = false) (hm : c ∈ l) : c ∈ l.dropWhile p := by
  induction l with
  | nil => simp at hm
  | cons x t ih =>
    rw [List.dropWhile_cons]
    by_cases hx : p x = true
    · rw [if_pos hx]
      rcases List.mem_cons.1 hm with h1 | h2
      · rw [h1] at hc
        rw [hc] at hx
        simp at hx
      · exact ih h2
    · rw [if_neg hx]
      exact hm

theorem pyStrip_ne_nil {p : Char → Bool} {c : Char} {l : PyStr}
    (hc : p c = false) (hm : c ∈ l) : pyStrip p l ≠ [] := by
  have h1 : c ∈ l.dropWhile p := mem_dropWhile_of_neg hc hm
  have h2 : c ∈ (l.dropWhile p).reverse := List.mem_reverse.2 h1
  have h3 : c ∈ (l.dropWhile p).reverse.dropWhile p := mem_dropWhile_of_neg hc h2
  have h4 : c ∈ pyStrip p l := List.mem_reverse.2 h3
  exact List.ne_nil_of_mem h4

theorem pyStrip_eq_self {p : Char → Bool} {l : PyStr}
    (hh : ∀ c, l.head? = some c → p c = false)
    (hg : ∀ c, l.getLast? = some c → p c = false) :
    pyStrip p l = l := by
  cases l with
  | nil => rfl
  | cons x t =>
    have hx : p x = false := hh x rfl
    have h1 : (x :: t).dropWhile p = x :: t := by
      rw [List.dropWhile_cons, hx]
      simp
    rw [pyStrip, h1]
    cases hr : (x :: t).reverse with
    | nil => simp at hr
    | cons y r =>
      have hy : p y = false := hg y (by rw [← List.head?_reverse, hr]; rfl)
      rw [List.dropWhile_cons, hy]
      simp only [Bool.false_eq_true, if_false]
      rw [← hr, List.reverse_reverse]

theorem getLast?_append_right {a b : PyStr} (hb : b ≠ []) :
    (a ++ b).getLast? = b.getLast? := by
  rw [← List.head?_reverse, ← List.head?_reverse, List.reverse_append]
  cases hrb : b.reverse with
  | nil => simp at hrb; exact absurd hrb hb
  | cons y r => rfl

theorem head?_append_left {a b : PyStr} (ha : a ≠ []) :
    (a ++ b).head? = a.head? := by
  cases a with
  | nil => exact absurd rfl ha
  | cons x t => rfl

theorem pyJoin_head? {sep : Char} {t : PyStr} {ts : List PyStr} (ht : t ≠ []) :
    (pyJoin sep (t :: ts)).head? = t.head? := by
  cases ts with
  | nil => rfl
  | cons t2 ts2 =>
    rw [pyJoin_cons_cons]
    exact head?_append_left ht

theorem pyJoin_ne_nil {sep : Char} {t : PyStr} {ts : List PyStr} (ht : t ≠ []) :
    pyJoin sep (t :: ts) ≠ [] := by
  cases ts with
  | nil => exact ht
  | cons t2 ts2 =>
    rw [pyJoin_cons_cons]
    intro h
    rcases List.append_eq_nil.1 h with ⟨_, h2⟩
    simp at h2

theorem pyJoin_getLast? {sep : Char} {ts : List PyStr}
    (hne : ts ≠ []) (h : ∀ t ∈ ts, t ≠ []) :
    (pyJoin sep ts).getLast? = (ts.getLastD []).getLast? := by
  induction ts with
  | nil => exact absurd rfl hne
  | cons t ts ih =>
    cases ts with
    | nil => rfl
    | cons t2 ts2 =>
      rw [pyJoin_cons_cons]
      have h2 : pyJoin sep (t2 :: ts2) ≠ [] := pyJoin_ne_nil (h t2 (by simp))
      have h3 : (sep :: pyJoin sep (t2 :: ts2)) = [sep] ++ pyJoin sep (t2 :: ts2) := rfl
      rw [getLast?_append_right (by simp), h3,
        getLast?_append_right h2, ih (by simp) (fun u hu => h u (by simp [hu]))]
      rfl

theorem dictInsert_of_fresh {d : List (PyStr × PyStr)} {k v : PyStr}
    (h : ∀ q ∈ d, k ≠ q.1) : dictInsert d k v = d ++ [(k, v)] := by
  rw [dictInsert, if_neg]
  intro hc
  rw [List.any_eq_true] at hc
  rcases hc with ⟨q, hq, hqk⟩
  have hq1 : q.1 = k := by simpa using hqk
  exact h q hq hq1.symm

theorem addCvTokens_of_wf (cvs : List (PyStr × PyStr)) (pairs : List (PyStr × PyStr))
    (hkv : ∀ p ∈ pairs, pyContains p.1 '=' = false ∧ pyContains p.2 '=' = false)
    (hfresh : ∀ p ∈ pairs, ∀ q ∈ cvs, p.1 ≠ q.1)
    (hnodup : (pairs.map Prod.fst).Nodup) :
    addCvTokens cvs (pairs.map (fun kv => kv.1 ++ '=' :: kv.2)) = .ok (cvs ++ pairs) := by
  induction pairs generalizing cvs with
  | nil => simp [addCvTokens]
  | cons p ps ih =>
    have hp := hkv p (by simp)
    have hsp : pySplit '=' (p.1 ++ '=' :: p.2) = [p.1, p.2] := by
      rw [pySplit_append_sep _ hp.1, pySplit_no_sep hp.2]
    rw [List.map_cons, addCvTokens, hsp]
    have hins : dictInsert cvs p.1 p.2 = cvs ++ [(p.1, p.2)] :=
      dictInsert_of_fresh (fun q hq => hfresh p (by simp) q hq)
    show addCvTokens (dictInsert cvs p.1 p.2)
        (List.map (fun kv => kv.1 ++ '=' :: kv.2) ps) = Except.ok (cvs ++ p :: ps)
    rw [hins]
    rw [List.map_cons, List.nodup_cons] at hnodup
    have hfresh2 : ∀ u ∈ ps, ∀ q ∈ cvs ++ [(p.1, p.2)], u.1 ≠ q.1 := by
      intro u hu q hq
      rcases List.mem_append.1 hq with h1 | h2
      · exact hfresh u (by simp [hu]) q h1
      · rw [List.mem_singleton] at h2
        subst h2
        intro he
        exact hnodup.1 (he ▸ List.mem_map_of_mem Prod.fst hu)
    rw [ih (cvs ++ [(p.1, p.2)]) (fun u hu => hkv u (by simp [hu])) hfresh2 hnodup.2]
    simp

/-! ### Toolkit: decimal rendering parses back -/

theorem pyDigitChar_isDigit (n : Nat) : (pyDigitChar n).isDigit = true := by
  rcases n with _ | _ | _ | _ | _ | _ | _ | _ | _ | m <;> rfl

theorem pyDigitChar_toNat {n : Nat} (h : n < 10) : (pyDigitChar n).toNat = 48 + n := by
  interval_cases n <;> rfl

theorem natDigitsAux_acc (fuel : Nat) : ∀ (n : Nat) (acc : PyStr),
    natDigitsAux fuel n acc = natDigitsAux fuel n [] ++ acc := by
  induction fuel with
  | zero => intro n acc; rfl
  | succ fuel ih =>
    intro n acc
    rw [natDigitsAux, natDigitsAux]
    by_cases h : n < 10
    · rw [if_pos h, if_pos h]
      rfl
    · rw [if_neg h, if_neg h, ih (n / 10) (pyDigitChar (n % 10) :: acc),
        ih (n / 10) [pyDigitChar (n % 10)]]
      simp

theorem natDigitsAux_fuel (n : Nat) : ∀ (fuel₁ fuel₂ : Nat) (acc : PyStr),
    n < fuel₁ → n < fuel₂ → natDigitsAux fuel₁ n acc = natDigitsAux fuel₂ n acc := by
  induction n using Nat.strong_induction_on with
  | _ n ih =>
    intro fuel₁ fuel₂ acc h₁ h₂
    cases fuel₁ with
    | zero => omega
    | succ f₁ =>
      cases fuel₂ with
      | zero => omega
      | succ f₂ =>
        rw [natDigitsAux, natDigitsAux]
        by_cases h : n < 10
        · rw [if_pos h, if_pos h]
        · rw [if_neg h, if_neg h]
          have hd : n / 10 < n := Nat.div_lt_self (by omega) (by omega)
          exact ih (n / 10) hd f₁ f₂ _ (by omega) (by omega)

/-- The natural unfolding of `natDigits`, independent of the fuel. -/
theorem natDigits_eq (n : Nat) : natDigits n =
    if n < 10 then [pyDigitChar n]
    else natDigits (n / 10) ++ [pyDigitChar (n % 10)] := by
  rw [natDigits, natDigitsAux]
  by_cases h : n < 10
  · rw [if_pos h, if_pos h]
  · rw [if_neg h, if_neg h]
    have hd : n / 10 < n := Nat.div_lt_self (by omega) (by omega)
    rw [natDigitsAux_acc, natDigitsAux_fuel (n / 10) n (n / 10 + 1) [] (by omega) (by omega)]
    rfl

theorem natDigits_ne_nil (n : Nat) : natDigits n ≠ [] := by
  rw [natDigits_eq]
  split
  · simp
  · simp

theorem mem_natDigits_isDigit (n : Nat) : ∀ c ∈ natDigits n, c.isDigit = true := by
  induction n using Nat.strong_induction_on with
  | _ n ih =>
    rw [natDigits_eq]
    split
    · intro c hc
      rw [List.mem_singleton] at hc
      exact hc ▸ pyDigitChar_isDigit _
    · intro c hc
      rcases List.mem_append.1 hc with h1 | h2
      · exact ih (n / 10) (Nat.div_lt_self (by omega) (by omega)) c h1
      · rw [List.mem_singleton] at h2
        exact h2 ▸ pyDigitChar_isDigit _

theorem isDigit_ne {c x : Char} (h : c.isDigit = true) (hx : x.isDigit = false) :
    c ≠ x := by
  intro he
  subst he
  rw [h] at hx
  simp at hx

theorem natDigits_not_contains {n : Nat} {x : Char} (hx : x.isDigit = false) :
    pyContains (natDigits n) x = false := by
  rw [pyContains_eq_false_iff]
  intro hm
  exact isDigit_ne (mem_natDigits_isDigit n x hm) hx rfl

theorem isDigit_not_space {c : Char} (h : c.isDigit = true) : pyIsSpace c = false := by
  have h1 : c ≠ ' ' := isDigit_ne h (by rfl)
  have h2 : c ≠ '\t' := isDigit_ne h (by rfl)
  have h3 : c ≠ '\n' := isDigit_ne h (by rfl)
  have h4 : c ≠ '\x0d' := isDigit_ne h (by rfl)
  have h5 : c ≠ '\x0b' := isDigit_ne h (by rfl)
  have h6 : c ≠ '\x0c' := isDigit_ne h (by rfl)
  simp [pyIsSpace, h1, h2, h3, h4, h5, h6]

theorem pyDigitsVal_append_digit (l : PyStr) (c : Char) :
    pyDigitsVal (l ++ [c]) = pyDigitsVal l * 10 + (c.toNat - 48) := by
  simp [pyDigitsVal, List.foldl_append]

theorem pyDigitsVal_natDigits (n : Nat) : pyDigitsVal (natDigits n) = n := by
  induction n using Nat.strong_induction_on with
  | _ n ih =>
    rw [natDigits_eq]
    split
    · rename_i h
      simp [pyDigitsVal, pyDigitChar_toNat h]
    · rw [pyDigitsVal_append_digit,
        ih (n / 10) (Nat.div_lt_self (by omega) (by omega)),
        pyDigitChar_toNat (Nat.mod_lt _ (by omega))]
      omega

theorem pyIntCore_natDigits (n : Nat) : pyIntCore (natDigits n) = some n := by
  have hnd : pyContains (natDigits n) '_' = false := natDigits_not_contains (by rfl)
  rw [pyIntCore]
  rw [pySplit_no_sep hnd]
  have hok : pyGroupsOk [natDigits n] = true := by
    rw [pyGroupsOk]
    simp only [List.all_cons, List.all_nil, Bool.and_true]
    rw [Bool.and_eq_true]
    constructor
    · simpa [List.isEmpty_iff] using natDigits_ne_nil n
    · rw [List.all_eq_true]
      exact mem_natDigits_isDigit n
  rw [hok]
  simp [pyDigitsVal_natDigits]

theorem mem_of_head?_eq {l : PyStr} {c : Char} (h : l.head? = some c) : c ∈ l := by
  cases l with
  | nil => simp at h
  | cons x t =>
    rw [List.head?_cons, Option.some.injEq] at h
    exact h ▸ List.mem_cons_self x t

theorem mem_of_getLast?_eq {l : PyStr} {c : Char} (h : l.getLast? = some c) : c ∈ l := by
  rw [← List.head?_reverse] at h
  exact List.mem_reverse.1 (mem_of_head?_eq h)

theorem pyStrip_space_natDigits (n : Nat) :
    pyStrip pyIsSpace (natDigits n) = natDigits n := by
  refine pyStrip_eq_self ?_ ?_
  · intro c hc
    exact isDigit_not_space (mem_natDigits_isDigit n c (mem_of_head?_eq hc))
  · intro c hc
    exact isDigit_not_space (mem_natDigits_isDigit n c (mem_of_getLast?_eq hc))

theorem pyInt_natDigits (n : Nat) : pyInt (natDigits n) = some (n : Int) := by
  rw [pyInt, pyStrip_space_natDigits]
  cases hd : natDigits n with
  | nil => exact absurd hd (natDigits_ne_nil n)
  | cons c rest =>
    have hcd : c.isDigit = true :=
      mem_natDigits_isDigit n c (by rw [hd]; exact List.mem_cons_self c rest)
    have h1 : c ≠ '-' := isDigit_ne hcd (by decide)
    have h2 : c ≠ '+' := isDigit_ne hcd (by decide)
    simp only [List.head?_cons, List.tail_cons, List.isEmpty_cons]
    rw [if_neg (by simpa using h1), if_neg (by simpa using h2), if_neg (by simp)]
    rw [← hd, pyIntCore_natDigits]
    rfl

theorem pyInt_pyIntRepr (n : Int) : pyInt (pyIntRepr n) = some n := by
  rw [pyIntRepr]
  by_cases hn : n < 0
  · rw [if_pos hn]
    have hdig := natDigits_ne_nil (-n).toNat
    have hstrip : pyStrip pyIsSpace ('-' :: natDigits (-n).toNat) =
        '-' :: natDigits (-n).toNat := by
      refine pyStrip_eq_self ?_ ?_
      · intro c hc
        rw [List.head?_cons, Option.some.injEq] at hc
        subst hc
        decide
      · intro c hc
        have h1 : ('-' :: natDigits (-n).toNat) = ['-'] ++ natDigits (-n).toNat := rfl
        rw [h1, getLast?_append_right hdig] at hc
        exact isDigit_not_space (mem_natDigits_isDigit _ c (mem_of_getLast?_eq hc))
    rw [pyInt, hstrip]
    simp only [List.head?_cons, List.tail_cons]
    rw [if_pos trivial, pyIntCore_natDigits]
    have h2 : ((-n).toNat : Int) = -n := Int.toNat_of_nonneg (by omega)
    simp [h2]
  · rw [if_neg hn, pyInt_natDigits]
    have h3 : (n.toNat : Int) = n := Int.toNat_of_nonneg (by omega)
    rw [h3]

/-! ### Toolkit: how an encoded descriptor splits back -/

theorem mem_of_head?_eq' {α : Type} {l : List α} {c : α} (h : l.head? = some c) :
    c ∈ l := by
  cases l with
  | nil => simp at h
  | cons x t =>
    rw [List.head?_cons, Option.some.injEq] at h
    exact h ▸ List.mem_cons_self x t

theorem mem_of_getLast?_eq' {α : Type} {l : List α} {c : α} (h : l.getLast? = some c) :
    c ∈ l := by
  rw [← List.head?_reverse] at h
  exact List.mem_reverse.1 (mem_of_head?_eq' h)

theorem getLastD_mem {α : Type} {l : List α} (h : l ≠ []) (d : α) :
    l.getLastD d ∈ l := by
  rw [List.getLastD_eq_getLast?]
  cases hg : l.getLast? with
  | none => exact absurd (List.getLast?_eq_none_iff.1 hg) h
  | some a => simpa using mem_of_getLast?_eq' hg

theorem not_mem_token {kv : PyStr × PyStr} {x : Char}
    (h1 : pyContains kv.1 x = false) (h2 : pyContains kv.2 x = false)
    (h3 : x ≠ '=') : x ∉ kv.1 ++ '=' :: kv.2 := by
  intro hm
  rcases List.mem_append.1 hm with ha | hb
  · exact (pyContains_eq_false_iff _ _).1 h1 ha
  · rcases List.mem_cons.1 hb with hc | hd
    · exact h3 hc
    · exact (pyContains_eq_false_iff _ _).1 h2 hd

theorem cvstr_pipe_free {cvs : List (PyStr × PyStr)}
    (hcv : ∀ kv ∈ cvs, pyContains kv.1 '|' = false ∧ pyContains kv.2 '|' = false) :
    pyContains (pyJoin '_' (cvs.map (fun kv => kv.1 ++ '=' :: kv.2))) '|' = false := by
  rw [pyContains_eq_false_iff]
  intro hm
  rcases mem_pyJoin hm with he | ⟨t, ht, hct⟩
  · exact absurd he (by decide)
  · rcases List.mem_map.1 ht with ⟨kv, hkv, rfl⟩
    exact not_mem_token (hcv kv hkv).1 (hcv kv hkv).2 (by decide) hct

theorem pyIntRepr_not_contains {n : Int} {x : Char}
    (hx : x.isDigit = false) (hm : x ≠ '-') : pyContains (pyIntRepr n) x = false := by
  rw [pyContains_eq_false_iff, pyIntRepr]
  split
  · intro h
    rcases List.mem_cons.1 h with h1 | h2
    · exact hm h1
    · exact isDigit_ne (mem_natDigits_isDigit _ _ h2) hx rfl
  · intro h
    exact isDigit_ne (mem_natDigits_isDigit _ _ h) hx rfl

theorem shalen_pipe_free {sha : PyStr} {len : Int}
    (h : pyContains sha '|' = false) :
    pyContains (sha ++ ':' :: pyIntRepr len) '|' = false := by
  rw [pyContains_eq_false_iff]
  intro hm
  rcases List.mem_append.1 hm with h1 | h2
  · exact (pyContains_eq_false_iff _ _).1 h h1
  · rcases List.mem_cons.1 h2 with h3 | h4
    · exact absurd h3 (by decide)
    · exact (pyContains_eq_false_iff _ _).1
        (pyIntRepr_not_contains (by decide) (by decide)) h4

theorem shalen_contains_colon (sha : PyStr) (len : Int) :
    pyContains (sha ++ ':' :: pyIntRepr len) ':' = true :=
  (pyContains_eq_true_iff _ _).2
    (List.mem_append.2 (Or.inr (List.mem_cons_self _ _)))

theorem pySplit_shalen {sha : PyStr} (len : Int)
    (h : pyContains sha ':' = false) :
    pySplit ':' (sha ++ ':' :: pyIntRepr len) = [sha, pyIntRepr len] := by
  rw [pySplit_append_sep _ h,
    pySplit_no_sep (pyIntRepr_not_contains (by decide) (by decide))]

theorem get_content_variants_eq_of_get? {s : PyStr} {cv : PyStr}
    (h : (pySplit '|' s).get? 1 = some cv) :
    __get_content_variants s =
      if (pyStrip pyIsSpace cv).isEmpty then .ok []
      else addCvTokens [] (pySplit '_' (pyStrip (fun c => c = '_') cv)) := by
  simp only [__get_content_variants]
  rw [h]

/-- Content variants decode back to the mapping they were serialized from,
provided keys and values avoid `_` and `=` and the keys are distinct. -/
theorem get_content_variants_of_wf (s : PyStr) (cvs : List (PyStr × PyStr))
    (hget : (pySplit '|' s).get? 1 =
      some (pyJoin '_' (cvs.map (fun kv => kv.1 ++ '=' :: kv.2))))
    (hcv : ∀ kv ∈ cvs,
      pyContains kv.1 '_' = false ∧ pyContains kv.1 '=' = false ∧
      pyContains kv.2 '_' = false ∧ pyContains kv.2 '=' = false)
    (hnd : (cvs.map Prod.fst).Nodup) :
    __get_content_variants s = .ok cvs := by
  rw [get_content_variants_eq_of_get? hget]
  cases hcvs : cvs with
  | nil =>
    subst hcvs
    rfl
  | cons p ps =>
    subst hcvs
    have hp := hcv p (by simp)
    have htokne : p.1 ++ '=' :: p.2 ≠ [] := by simp
    have htoks_ne : ∀ t ∈ (p :: ps).map (fun kv => kv.1 ++ '=' :: kv.2), t ≠ [] := by
      intro t ht
      rcases List.mem_map.1 ht with ⟨kv, _, rfl⟩
      simp
    have htoks_us : ∀ t ∈ (p :: ps).map (fun kv => kv.1 ++ '=' :: kv.2),
        pyContains t '_' = false := by
      intro t ht
      rcases List.mem_map.1 ht with ⟨kv, hkv, rfl⟩
      rw [pyContains_eq_false_iff]
      exact not_mem_token (hcv kv hkv).1 (hcv kv hkv).2.2.1 (by decide)
    have hmem_eq : '=' ∈ pyJoin '_' ((p :: ps).map (fun kv => kv.1 ++ '=' :: kv.2)) :=
      mem_pyJoin_of_mem (List.mem_map_of_mem _ (List.mem_cons_self p ps))
        (List.mem_append.2 (Or.inr (List.mem_cons_self _ _)))
    have hne : pyStrip pyIsSpace
        (pyJoin '_' ((p :: ps).map (fun kv => kv.1 ++ '=' :: kv.2))) ≠ [] :=
      pyStrip_ne_nil (p := pyIsSpace) (by decide) hmem_eq
    have hstrip : pyStrip (fun c => c = '_')
        (pyJoin '_' ((p :: ps).map (fun kv => kv.1 ++ '=' :: kv.2))) =
        pyJoin '_' ((p :: ps).map (fun kv => kv.1 ++ '=' :: kv.2)) := by
      refine pyStrip_eq_self ?_ ?_
      · intro c hc
        rw [List.map_cons, pyJoin_head? htokne] at hc
        have hcm : c ∈ p.1 ++ '=' :: p.2 := mem_of_head?_eq hc
        have : c ≠ '_' := fun he =>
          not_mem_token hp.1 hp.2.2.1 (by decide) (he ▸ hcm)
        simpa using this
      · intro c hc
        rw [pyJoin_getLast? (by simp) htoks_ne] at hc
        have hlast_mem := getLastD_mem
          (l := (p :: ps).map (fun kv => kv.1 ++ '=' :: kv.2)) (by simp) []
        rcases List.mem_map.1 hlast_mem with ⟨kv, hkv, hkveq⟩
        rw [← hkveq] at hc
        have hcm : c ∈ kv.1 ++ '=' :: kv.2 := mem_of_getLast?_eq hc
        have : c ≠ '_' := fun he =>
          not_mem_token (hcv kv hkv).1 (hcv kv hkv).2.2.1 (by decide) (he ▸ hcm)
        simpa using this
    have htok : pySplit '_' (pyJoin '_' ((p :: ps).map (fun kv => kv.1 ++ '=' :: kv.2))) =
        (p :: ps).map (fun kv => kv.1 ++ '=' :: kv.2) :=
      pySplit_pyJoin (by simp) htoks_us
    have hadd : addCvTokens [] ((p :: ps).map (fun kv => kv.1 ++ '=' :: kv.2)) =
        .ok (p :: ps) := by
      have := addCvTokens_of_wf [] (p :: ps)
        (fun u hu => ⟨(hcv u hu).2.1, (hcv u hu).2.2.2⟩)
        (fun u _ q hq => absurd hq (List.not_mem_nil q)) hnd
      simpa using this
    rw [if_neg (by rw [List.isEmpty_iff]; exact hne), hstrip, htok, hadd]

/-! ### C2: the encode/decode round trip -/

/-- The reserved-delimiter discipline of the descriptor grammar (§3, §6):
no `|` in URL, format, compression or checksum; no `:` in the checksum; no
`|`, `_` or `=` in content-variant keys or values; distinct variant keys. -/
def DelimWF (d : DistDescriptor) : Prop :=
  pyContains d.url '|' = false ∧
  pyContains d.format_extension '|' = false ∧
  pyContains d.compression '|' = false ∧
  pyContains d.checksum '|' = false ∧
  pyContains d.checksum ':' = false ∧
  (∀ kv ∈ d.content_variants,
    pyContains kv.1 '|' = false ∧ pyContains kv.1 '_' = false ∧
    pyContains kv.1 '=' = false ∧ pyContains kv.2 '|' = false ∧
    pyContains kv.2 '_' = false ∧ pyContains kv.2 '=' = false) ∧
  (d.content_variants.map Prod.fst).Nodup

instance (d : DistDescriptor) : Decidable (DelimWF d) := by
  unfold DelimWF
  infer_instance

/-- How a fully-populated encoded descriptor splits back on `|`. -/
theorem encode_full_split (d : DistDescriptor) (h : DelimWF d) :
    pySplit '|' (create_distribution d.url d.content_variants
      (some d.format_extension) (some d.compression)
      (some (d.checksum, d.byte_length))) =
    [d.url, pyJoin '_' (d.content_variants.map (fun kv => kv.1 ++ '=' :: kv.2)),
     d.format_extension, d.compression,
     d.checksum ++ ':' :: pyIntRepr d.byte_length] := by
  obtain ⟨hurl, hfmt, hcomp, hck1, hck2, hcv, hnd⟩ := h
  have hcvstr : pyContains
      (pyJoin '_' (d.content_variants.map (fun kv => kv.1 ++ '=' :: kv.2))) '|' = false :=
    cvstr_pipe_free (fun kv hkv => ⟨(hcv kv hkv).1, (hcv kv hkv).2.2.2.1⟩)
  have hsha : pyContains (d.checksum ++ ':' :: pyIntRepr d.byte_length) '|' = false :=
    shalen_pipe_free hck1
  have h0 : create_distribution d.url d.content_variants (some d.format_extension)
      (some d.compression) (some (d.checksum, d.byte_length)) =
      d.url ++ '|' ::
        (pyJoin '_' (d.content_variants.map (fun kv => kv.1 ++ '=' :: kv.2)) ++ '|' ::
          (d.format_extension ++ '|' ::
            (d.compression ++ '|' :: (d.checksum ++ ':' :: pyIntRepr d.byte_length)))) := by
    simp [create_distribution, List.append_assoc]
  rw [h0, pySplit_append_sep _ hurl, pySplit_append_sep _ hcvstr,
    pySplit_append_sep _ hfmt, pySplit_append_sep _ hcomp, pySplit_no_sep hsha]

/-- Counterexample to C2 as stated: the descriptor whose format is the
string `x|y` (with explicit compression and checksum/length) does not
survive the round trip — the extra `|` shifts the positional grammar, and
decoding falls back to URL inference, returning format `json` instead. -/
theorem c2_counterexample :
    __get_file_info (fun _ => (200, [])) (fun _ => [])
      (create_distribution "http://e/data.json".toList [] (some "x|y".toList)
        (some "gz".toList)
        (some ("0123456789abcdef0123456789abcdef0123456789abcdef0123456789abcdef".toList, 5))) =
      .ok ([], "json".toList, "none".toList,
        "0123456789abcdef0123456789abcdef0123456789abcdef0123456789abcdef".toList, 5) ∧
    "json".toList ≠ "x|y".toList := by
  constructor
  · rfl
  · decide

/-- C2 (amended): `decode (encode d) = d` — with the content variants in
their original insertion order — for every descriptor `d` that respects the
grammar's reserved delimiters (`DelimWF`): no `|` in URL, format,
compression or checksum, no `:` in the checksum, and no `|`, `_`, `=` in
variant keys or values, with distinct keys.  No fetch is involved:
the result is independent of the injected fetcher and hasher. -/
theorem c2_roundtrip (d : DistDescriptor) (h : DelimWF d)
    (fetch : PyStr → Nat × List Nat) (sha256hex : List Nat → PyStr) :
    __get_file_info fetch sha256hex
      (create_distribution d.url d.content_variants (some d.format_extension)
        (some d.compression) (some (d.checksum, d.byte_length))) =
      .ok (d.content_variants, d.format_extension, d.compression,
        d.checksum, d.byte_length) := by
  have hsplit := encode_full_split d h
  obtain ⟨hurl, hfmt, hcomp, hck1, hck2, hcv, hnd⟩ := h
  have hcvs : __get_content_variants (create_distribution d.url d.content_variants
      (some d.format_extension) (some d.compression)
      (some (d.checksum, d.byte_length))) = .ok d.content_variants := by
    refine get_content_variants_of_wf _ d.content_variants ?_
      (fun kv hkv => ⟨(hcv kv hkv).2.1, (hcv kv hkv).2.2.1,
        (hcv kv hkv).2.2.2.2.1, (hcv kv hkv).2.2.2.2.2⟩) hnd
    rw [hsplit]
    rfl
  have hfd : __get_filetype_definition (create_distribution d.url d.content_variants
      (some d.format_extension) (some d.compression)
      (some (d.checksum, d.byte_length))) =
      (some d.format_extension, some d.compression) := by
    rw [__get_filetype_definition, hsplit]
    rfl
  have hext := get_extensions_of_some_some hfd
  have hstats : __get_file_stats (create_distribution d.url d.content_variants
      (some d.format_extension) (some d.compression)
      (some (d.checksum, d.byte_length))) =
      .ok (some (d.checksum, d.byte_length)) := by
    rw [__get_file_stats, hsplit]
    have hcol : pyContains
        (([d.url, pyJoin '_' (d.content_variants.map (fun kv => kv.1 ++ '=' :: kv.2)),
          d.format_extension, d.compression,
          d.checksum ++ ':' :: pyIntRepr d.byte_length].drop 1).getLastD []) ':' = true := by
      simpa using shalen_contains_colon d.checksum d.byte_length
    rw [hcol]
    simp only [List.drop_succ_cons, List.drop_zero, List.isEmpty_cons, Bool.not_true,
      Bool.or_self, Bool.false_eq_true, if_false]
    have hlast : ([pyJoin '_' (d.content_variants.map (fun kv => kv.1 ++ '=' :: kv.2)),
        d.format_extension, d.compression,
        d.checksum ++ ':' :: pyIntRepr d.byte_length].getLastD []) =
        d.checksum ++ ':' :: pyIntRepr d.byte_length := rfl
    rw [hlast, pySplit_shalen d.byte_length hck2]
    show (match pyInt (pyIntRepr d.byte_length) with
      | some content_length => Except.ok (some (d.checksum, content_length))
      | none => Except.error PyError.intParse) =
      Except.ok (some (d.checksum, d.byte_length))
    rw [pyInt_pyIntRepr]
  cases hget : __get_content_variants (create_distribution d.url d.content_variants
      (some d.format_extension) (some d.compression)
      (some (d.checksum, d.byte_length))) with
  | error e =>
    rw [hget] at hcvs
    exact absurd hcvs (by simp)
  | ok cvs =>
    rw [hget] at hcvs
    have hcvs2 : cvs = d.content_variants := by
      simpa using hcvs
    subst hcvs2
    simp [__get_file_info, hget, hstats, hext, Bind.bind, Except.bind,
      Pure.pure, Except.pure]

/-- Witness for C2 (amended) at a concrete two-variant descriptor with an
unreachable URL (fetcher always answers 500). -/
theorem c2_roundtrip_witness :
    __get_file_info (fun _ => (500, [])) (fun _ => [])
      (create_distribution "http://e/x".toList
        [("a".toList, "1".toList), ("b".toList, "2".toList)]
        (some "json".toList) (some "gz".toList)
        (some ("feedfeedfeedfeedfeedfeedfeedfeedfeedfeedfeedfeedfeedfeedfeedfeed".toList, 7))) =
      .ok ([("a".toList, "1".toList), ("b".toList, "2".toList)],
        "json".toList, "gz".toList,
        "feedfeedfeedfeedfeedfeedfeedfeedfeedfeedfeedfeedfeedfeedfeedfeed".toList, 7) :=
  c2_roundtrip
    ⟨"http://e/x".toList,
      [("a".toList, "1".toList), ("b".toList, "2".toList)],
      "json".toList, "gz".toList,
      "feedfeedfeedfeedfeedfeedfeedfeedfeedfeedfeedfeedfeedfeedfeedfeed".toList, 7⟩
    (by decide) (fun _ => (500, [])) (fun _ => [])

/-! ### C9: compression without format is emitted and misread -/

/-- C9: encoding with a compression override but no format override still
emits the compression value as a post-URL segment (the encoder does not
detect or reject the combination), and `__get_filetype_definition` then
reads that compression value back as the format, leaving the compression
slot unresolved — with or without an explicit checksum/length pair. -/
theorem c9_compression_without_format (url : PyStr) (cvs : List (PyStr × PyStr))
    (compression : PyStr) (stats : Option (PyStr × Int))
    (hurl : pyContains url '|' = false)
    (hcv : ∀ kv ∈ cvs, pyContains kv.1 '|' = false ∧ pyContains kv.2 '|' = false)
    (hc : pyContains compression '|' = false)
    (hc2 : pyContains compression ':' = false)
    (hsha : stats.elim True (fun pr => pyContains pr.1 '|' = false)) :
    compression ∈
      (pySplit '|' (create_distribution url cvs none (some compression) stats)).drop 1 ∧
    __get_filetype_definition (create_distribution url cvs none (some compression) stats) =
      (some compression, none) := by
  have hcvstr : pyContains
      (pyJoin '_' (cvs.map (fun kv => kv.1 ++ '=' :: kv.2))) '|' = false :=
    cvstr_pipe_free hcv
  cases stats with
  | none =>
    have h0 : create_distribution url cvs none (some compression) none =
        url ++ '|' ::
          (pyJoin '_' (cvs.map (fun kv => kv.1 ++ '=' :: kv.2)) ++ '|' :: compression) := by
      simp [create_distribution, List.append_assoc]
    have hsplit : pySplit '|' (create_distribution url cvs none (some compression) none) =
        [url, pyJoin '_' (cvs.map (fun kv => kv.1 ++ '=' :: kv.2)), compression] := by
      rw [h0, pySplit_append_sep _ hurl, pySplit_append_sep _ hcvstr, pySplit_no_sep hc]
    constructor
    · rw [hsplit]
      simp
    · rw [__get_filetype_definition, hsplit]
      simp [filetypeOfMeta, hc2]
  | some pr =>
    obtain ⟨sha, len⟩ := pr
    have hshapipe : pyContains sha '|' = false := hsha
    have hsl : pyContains (sha ++ ':' :: pyIntRepr len) '|' = false :=
      shalen_pipe_free hshapipe
    have h0 : create_distribution url cvs none (some compression) (some (sha, len)) =
        url ++ '|' ::
          (pyJoin '_' (cvs.map (fun kv => kv.1 ++ '=' :: kv.2)) ++ '|' ::
            (compression ++ '|' :: (sha ++ ':' :: pyIntRepr len))) := by
      simp [create_distribution, List.append_assoc]
    have hsplit : pySplit '|'
        (create_distribution url cvs none (some compression) (some (sha, len))) =
        [url, pyJoin '_' (cvs.map (fun kv => kv.1 ++ '=' :: kv.2)), compression,
          sha ++ ':' :: pyIntRepr len] := by
      rw [h0, pySplit_append_sep _ hurl, pySplit_append_sep _ hcvstr,
        pySplit_append_sep _ hc, pySplit_no_sep hsl]
    constructor
    · rw [hsplit]
      simp
    · rw [__get_filetype_definition, hsplit]
      simp [filetypeOfMeta, shalen_contains_colon sha len]

/-- Witness for C9: compression `gz` without a format, plus explicit stats,
decodes with format `gz`. -/
theorem c9_compression_without_format_witness :
    "gz".toList ∈ (pySplit '|' (create_distribution "http://e/x".toList
      [("a".toList, "1".toList)] none (some "gz".toList)
      (some ("abc".toList, 7)))).drop 1 ∧
    __get_filetype_definition (create_distribution "http://e/x".toList
      [("a".toList, "1".toList)] none (some "gz".toList)
      (some ("abc".toList, 7))) = (some "gz".toList, none) :=
  c9_compression_without_format "http://e/x".toList [("a".toList, "1".toList)]
    "gz".toList (some ("abc".toList, 7))
    (by decide) (by decide) (by decide) (by decide)
    (by show pyContains "abc".toList '|' = false; decide)

end Databus
